import Mathlib

/-!
Verification of the micromidi generator (`micromidi_generator.py`).

The Python script converts CSV rows describing notes (pitch name, pitch bend,
normalized velocity, duration, start time) into a two-track MIDI file:
a Clean track (channel 0) for rows with bend 0 and a Bent track (channel 1)
for rows with a nonzero bend.  Below we embed the script's pure core:
the pitch parser `note_name_to_midi`, the row translator, the per-track
event scheduler (stable sort by (time, priority) plus delta encoding) and
the track assembler.  Numeric CSV cells, parsed by Python's `int`/`float`,
are modelled as exact integers and rationals; file I/O is modelled by
returning an optional track list together with the console log.
-/

namespace Micromidi

/-- Tick resolution of the generator: 960 ticks per second. -/
def TICKS_PER_SECOND : ℤ := 960

/-! ### Numeric cell parsing (Python `int(...)` / `float(...)` on decimal literals) -/

/-- Whitespace characters removed by Python's `str.strip()`. -/
def isSpaceChar (c : Char) : Bool :=
  c = ' ' ∨ c = '\t' ∨ c = '\n' ∨ c = '\r' ∨ c = '\x0b' ∨ c = '\x0c'

/-- Python's `str.strip()`: drop whitespace from both ends. -/
def pyStrip (cs : List Char) : List Char :=
  ((cs.dropWhile isSpaceChar).reverse.dropWhile isSpaceChar).reverse

/-- Value of a list of decimal digit characters. -/
def digitsVal (cs : List Char) : ℕ :=
  cs.foldl (fun a c => 10 * a + (c.toNat - 48)) 0

/-- Python `int(s)` body on stripped characters: optional sign then digits. -/
def parseIntChars? : List Char → Option ℤ
  | [] => none
  | '-' :: ds => if ds ≠ [] ∧ ds.all Char.isDigit then some (-(digitsVal ds : ℤ)) else none
  | '+' :: ds => if ds ≠ [] ∧ ds.all Char.isDigit then some ((digitsVal ds : ℤ)) else none
  | ds => if ds.all Char.isDigit then some ((digitsVal ds : ℤ)) else none

/-- Python `int(cell.strip())` for the bend field. -/
def parseInt? (s : String) : Option ℤ :=
  parseIntChars? (pyStrip s.toList)

/-- Unsigned decimal literal with an optional fractional part, as an exact
rational. -/
def parseUnsignedFloat? (cs : List Char) : Option ℚ :=
  let intPart := cs.takeWhile Char.isDigit
  let rest := cs.dropWhile Char.isDigit
  match rest with
  | [] => if intPart ≠ [] then some (Rat.divInt (digitsVal intPart) 1) else none
  | '.' :: frac =>
      if frac.all Char.isDigit ∧ (intPart ≠ [] ∨ frac ≠ []) then
        some (Rat.divInt
          ((digitsVal intPart : ℤ) * ((10 ^ frac.length : ℕ) : ℤ) + (digitsVal frac : ℤ))
          ((10 ^ frac.length : ℕ) : ℤ))
      else none
  | _ => none

/-- Python `float(cell.strip())`, restricted to plain decimal literals and
modelled exactly (the script's claims do not depend on binary float error). -/
def parseFloat? (s : String) : Option ℚ :=
  match pyStrip s.toList with
  | '-' :: cs => (parseUnsignedFloat? cs).map (fun q => -q)
  | '+' :: cs => parseUnsignedFloat? cs
  | cs => parseUnsignedFloat? cs

/-- Python `int(q * s)` for a rational `q`: truncation toward zero, computed
on the numerator and denominator. -/
def pyTruncMul (q : ℚ) (s : ℤ) : ℤ :=
  (q.num * s).tdiv (q.den : ℤ)

/-- Python `round(q * s)` for a rational `q`: round half to even, computed
on the numerator and denominator. -/
def pyRoundMul (q : ℚ) (s : ℤ) : ℤ :=
  let a := q.num * s
  let d := (q.den : ℤ)
  let f := a / d
  if 2 * (a % d) < d then f
  else if d < 2 * (a % d) then f + 1
  else if f % 2 = 0 then f else f + 1

/-- Python `round(x)` on a rational, stated abstractly: round half to even. -/
def pyRound (x : ℚ) : ℤ :=
  if x - (⌊x⌋ : ℚ) < 1 / 2 then ⌊x⌋
  else if 1 / 2 < x - (⌊x⌋ : ℚ) then ⌊x⌋ + 1
  else if ⌊x⌋ % 2 = 0 then ⌊x⌋ else ⌊x⌋ + 1

/-! ### Pitch parser (`note_name_to_midi`) -/

/-- Semitone offset of a note letter from C; the dict lookup of the script. -/
def letterBase (c : Char) : ℤ :=
  if c = 'C' then 0
  else if c = 'D' then 2
  else if c = 'E' then 4
  else if c = 'F' then 5
  else if c = 'G' then 7
  else if c = 'A' then 9
  else 11

/-- Split an upper-cased character list into letter, optional accidental and
the remaining octave characters, per the regex `([A-G][#B]?)(-?[0-9]+)`.
The accidental characters cannot begin the octave part, so the greedy
match of the regex is deterministic. -/
def splitPitch : List Char → Option ((Char × Option Char) × List Char)
  | [] => none
  | c :: rest =>
    if 'A' ≤ c ∧ c ≤ 'G' then
      match rest with
      | a :: rest2 =>
          if a = '#' ∨ a = 'B' then some ((c, some a), rest2) else some ((c, none), rest)
      | [] => some ((c, none), [])
    else none

/-- Octave part of the regex: an optional minus sign then one or more digits. -/
def parseOctave? : List Char → Option ℤ
  | [] => none
  | '-' :: ds => if ds ≠ [] ∧ ds.all Char.isDigit then some (-(digitsVal ds : ℤ)) else none
  | ds => if ds.all Char.isDigit then some ((digitsVal ds : ℤ)) else none

/-- Components of a pitch string: the semitone offset (letter plus accidental)
and the octave, after stripping and upper-casing the input. -/
def pitchComponents (s : String) : Option (ℤ × ℤ) :=
  match splitPitch ((pyStrip s.toList).map Char.toUpper) with
  | none => none
  | some ((c, acc), rest) =>
    match parseOctave? rest with
    | none => none
    | some oct =>
        let base : ℤ :=
          letterBase c + (match acc with
            | some '#' => 1
            | some _ => -1
            | none => 0)
        some (base, oct)

/-- The script's `note_name_to_midi`: `(octave + 1) * 12 + base`, clamped to
[0, 127]; `none` models the `ValueError` raised on a format mismatch. -/
def note_name_to_midi (s : String) : Option ℤ :=
  (pitchComponents s).map (fun p => max 0 (min 127 ((p.2 + 1) * 12 + p.1)))

/-! ### Events -/

/-- Kind tag of an intermediate event dict. -/
inductive EKind
  | pitchwheel
  | note_on
  | note_off
deriving DecidableEq

/-- An intermediate event record, as built by the row translator.  Unused
fields of the Python dicts default to 0. -/
structure Event where
  time : ℤ
  priority : ℤ
  kind : EKind
  note : ℤ := 0
  vel : ℤ := 0
  val : ℤ := 0
deriving DecidableEq

instance : Inhabited Event := ⟨⟨0, 0, EKind.note_on, 0, 0, 0⟩⟩

/-- The comparison behind `event_list.sort(key=lambda x: (x.time, x.priority))`:
lexicographic order on (time, priority). -/
def eventLE (a b : Event) : Prop :=
  a.time < b.time ∨ (a.time = b.time ∧ a.priority ≤ b.priority)

instance : DecidableRel eventLE := fun a b => by
  unfold eventLE; infer_instance

instance : IsTotal Event eventLE :=
  ⟨fun a b => by unfold eventLE; omega⟩

instance : IsTrans Event eventLE :=
  ⟨fun a b c hab hbc => by unfold eventLE at *; omega⟩

/-- Python's `list.sort` is a stable sort on the key; insertion sort is a
stable sort for `eventLE`, hence computes the same list. -/
def sortEvents (l : List Event) : List Event :=
  l.insertionSort eventLE

/-- The delta-encoding loop of `write_events_to_track`, carrying
`last_tick_time`; a negative delta is replaced by 0. -/
def deltaEncodeAux (last : ℤ) : List Event → List (ℤ × Event)
  | [] => []
  | e :: rest =>
      (if e.time - last < 0 then 0 else e.time - last, e) :: deltaEncodeAux e.time rest

/-- Delta encoding starting from `last_tick_time = 0`. -/
def deltaEncode (l : List Event) : List (ℤ × Event) :=
  deltaEncodeAux 0 l

/-- The scheduler: sort by (time, priority), then delta encode. -/
def schedule (l : List Event) : List (ℤ × Event) :=
  deltaEncode (sortEvents l)

/-! ### MIDI messages and tracks -/

/-- MIDI messages appended to a `MidiTrack`; `time` is the delta time. -/
inductive Msg
  | set_tempo (tempo : ℤ) (time : ℤ)
  | program_change (channel : ℤ) (program : ℤ) (time : ℤ)
  | pitchwheel (channel : ℤ) (pitch : ℤ) (time : ℤ)
  | note_on (channel : ℤ) (note : ℤ) (velocity : ℤ) (time : ℤ)
  | note_off (channel : ℤ) (note : ℤ) (velocity : ℤ) (time : ℤ)
  | end_of_track (time : ℤ)
deriving DecidableEq

/-- Whether a message is a tempo-set meta message. -/
def Msg.isTempo : Msg → Bool
  | .set_tempo _ _ => true
  | _ => false

/-- The message emitted for one delta-encoded event, per the dispatch on
`event.type` in `write_events_to_track`. -/
def eventMsg (channel : ℤ) (de : ℤ × Event) : Msg :=
  match de.2.kind with
  | .pitchwheel => .pitchwheel channel de.2.val de.1
  | .note_on => .note_on channel de.2.note de.2.vel de.1
  | .note_off => .note_off channel de.2.note de.2.vel de.1

/-- The messages `write_events_to_track` appends for an event list and channel. -/
def write_events_to_track (evts : List Event) (channel : ℤ) : List Msg :=
  (schedule evts).map (eventMsg channel)

/-- A MIDI track: its name attribute and the appended messages.  The name is
track metadata handled by the external MIDI library, kept out of band here. -/
structure MidiTrack where
  name : String
  msgs : List Msg
deriving DecidableEq

instance : Inhabited MidiTrack := ⟨⟨"", []⟩⟩

/-! ### Row translation -/

/-- The values computed for one accepted CSV row. -/
structure RowData where
  midi_note : ℤ
  bend : ℤ
  velocity : ℤ
  start_ticks : ℤ
  duration_ticks : ℤ
  end_ticks : ℤ
deriving DecidableEq

/-- The row computation of `generate_24edo_sequencer` lines 97-100:
tick conversion by `int(x * 960)` and velocity by `int(round(v * 127))`. -/
def mkRowData (n bend : ℤ) (v dur st : ℚ) : RowData :=
  let start_ticks := pyTruncMul st TICKS_PER_SECOND
  let duration_ticks := pyTruncMul dur TICKS_PER_SECOND
  { midi_note := n
    bend := bend
    velocity := pyRoundMul v 127
    start_ticks := start_ticks
    duration_ticks := duration_ticks
    end_ticks := start_ticks + duration_ticks }

/-- Field parsing of one row with at least 5 cells: positions
0 = note name, 1 = bend, 2 = velocity_norm, 3 = duration, 4 = start time.
`none` models the `ValueError` that skips the row. -/
def parseRow? (row : List String) : Option RowData := do
  let bend ← parseInt? (row.getD 1 "")
  let v ← parseFloat? (row.getD 2 "")
  let dur ← parseFloat? (row.getD 3 "")
  let st ← parseFloat? (row.getD 4 "")
  let n ← note_name_to_midi (row.getD 0 "")
  pure (mkRowData n bend v dur st)

/-- Outcome of the per-row loop body: rows shorter than 5 cells are skipped
silently, rows failing a parse are skipped with a diagnostic, others accepted. -/
inductive RowResult
  | tooShort
  | invalid
  | ok (d : RowData)
deriving DecidableEq

/-- The loop body's classification of one row (lines 88-137 of the script). -/
def processRow (row : List String) : RowResult :=
  if 5 ≤ row.length then
    match parseRow? row with
    | some d => .ok d
    | none => .invalid
  else .tooShort

/-- The pitchwheel event appended for a row with nonzero bend. -/
def pbEvent (d : RowData) : Event :=
  { time := d.start_ticks, priority := 0, kind := .pitchwheel, val := d.bend }

/-- The note_on event appended for a row. -/
def onEvent (d : RowData) : Event :=
  { time := d.start_ticks, priority := 1, kind := .note_on, note := d.midi_note,
    vel := d.velocity }

/-- The note_off event appended for a row. -/
def offEvent (d : RowData) : Event :=
  { time := d.end_ticks, priority := 0, kind := .note_off, note := d.midi_note, vel := 0 }

/-- All events a row appends to its target list, in append order. -/
def rowEvents (d : RowData) : List Event :=
  (if d.bend ≠ 0 then [pbEvent d] else []) ++ [onEvent d, offEvent d]

/-- State of the parsing loop: the two partitions and the console diagnostics. -/
structure ParseState where
  clean : List Event
  bent : List Event
  diags : List String
deriving DecidableEq

/-- One iteration of the row loop. -/
def stepRow (st : ParseState) (row : List String) : ParseState :=
  match processRow row with
  | .tooShort => st
  | .invalid => { st with diags := st.diags ++ ["Skipping invalid row"] }
  | .ok d =>
      if d.bend ≠ 0 then { st with bent := st.bent ++ rowEvents d }
      else { st with clean := st.clean ++ rowEvents d }

/-- The whole parsing loop over the data rows (the header row is already
consumed by the CSV reader). -/
def parseRows (rows : List (List String)) : ParseState :=
  rows.foldl stepRow ⟨[], [], []⟩

/-! ### Track assembly -/

/-- The Clean track: tempo meta, program change on channel 0, the scheduled
clean events, then end of track. -/
def buildCleanTrack (clean : List Event) : MidiTrack :=
  { name := "Standard Notes"
    msgs := [Msg.set_tempo 500000 0, Msg.program_change 0 0 0]
      ++ write_events_to_track clean 0 ++ [Msg.end_of_track 0] }

/-- The Bent track: program change on channel 1, the scheduled bent events,
then end of track. -/
def buildBentTrack (bent : List Event) : MidiTrack :=
  { name := "Microtonal Notes"
    msgs := [Msg.program_change 1 0 0]
      ++ write_events_to_track bent 1 ++ [Msg.end_of_track 0] }

/-- Track assembly (lines 149-175): always a Clean track, plus a Bent track
exactly when the bent partition is non-empty. -/
def assemble (clean bent : List Event) : List MidiTrack :=
  [buildCleanTrack clean] ++ (if bent ≠ [] then [buildBentTrack bent] else [])

/-- Result of a run: the saved track list (`none` when no file is written)
and the console output after the input-file checks. -/
structure PipelineResult where
  tracks : Option (List MidiTrack)
  console : List String
deriving DecidableEq

/-- The pipeline on the data rows of an existing, readable input file. -/
def generate_24edo_sequencer (rows : List (List String)) (output_filename : String) :
    PipelineResult :=
  let st := parseRows rows
  if st.clean = [] ∧ st.bent = [] then
    { tracks := none, console := st.diags ++ ["No valid events found."] }
  else
    { tracks := some (assemble st.clean st.bent)
      console := st.diags
        ++ ["Success! Saved to " ++ output_filename,
            "Stats: " ++ toString (st.clean.length / 2) ++ " standard notes, "
              ++ toString (st.bent.length / 3) ++ " bent notes."] }

/-! ### Helper lemmas -/

theorem parseRow?_shape {row : List String} {d : RowData} (h : parseRow? row = some d) :
    ∃ n bend v dur st, d = mkRowData n bend v dur st := by
  unfold parseRow? at h
  simp only [Option.bind_eq_bind, Option.bind_eq_some, Option.pure_def, Option.some_inj] at h
  obtain ⟨bend, _, v, _, dur, _, st, _, n, _, rfl⟩ := h
  exact ⟨n, bend, v, dur, st, rfl⟩

theorem processRow_ok {row : List String} {d : RowData} (h : processRow row = RowResult.ok d) :
    parseRow? row = some d := by
  unfold processRow at h
  split at h
  · split at h
    · rename_i heq; cases h; exact heq
    · cases h
  · cases h

theorem mkRowData_end_ticks (n bend : ℤ) (v dur st : ℚ) :
    (mkRowData n bend v dur st).end_ticks =
      (mkRowData n bend v dur st).start_ticks + (mkRowData n bend v dur st).duration_ticks := rfl

/-! ### Claim C5: pitch parser values -/

/-- C5 counterexample: the claim asserts `parse_pitch("F#5") == 66`, but the
code computes `(5 + 1) * 12 + 6 = 78` (consistent with its own docstring,
which fixes C4 = 60). -/
theorem C5_counterexample :
    note_name_to_midi "F#5" = some 78 ∧ ¬ note_name_to_midi "F#5" = some 66 := by
  constructor
  · decide
  · decide

/-- C5 (amended): the pitch parser is a function (hence deterministic) and
returns C4 = 60, c4 = 60 (case-insensitive), F#5 = 78, and Bb3 = 58. -/
theorem C5_pitch_values :
    note_name_to_midi "C4" = some 60
    ∧ note_name_to_midi "c4" = some 60
    ∧ note_name_to_midi "F#5" = some 78
    ∧ note_name_to_midi "Bb3" = some 58 := by
  refine ⟨?_, ?_, ?_, ?_⟩ <;> decide

/-! ### Claim C9: pitch parser clamping -/

/-- C9: on every string matching the pitch grammar (i.e. accepted by
`pitchComponents` after stripping and case folding) the parser returns a
value rather than failing, and that value is `(octave + 1) * 12 + offset`
clamped to [0, 127]: below-range inputs give 0, above-range give 127. -/
theorem C9_pitch_clamp (s : String) (b oct : ℤ) (h : pitchComponents s = some (b, oct)) :
    note_name_to_midi s = some (max 0 (min 127 ((oct + 1) * 12 + b)))
    ∧ ((oct + 1) * 12 + b < 0 → note_name_to_midi s = some 0)
    ∧ (127 < (oct + 1) * 12 + b → note_name_to_midi s = some 127) := by
  unfold note_name_to_midi
  rw [h]
  refine ⟨rfl, ?_, ?_⟩ <;> intro hr <;> simp only [Option.map_some'] <;> congr 1 <;> omega

/-- Concrete instance of C9: "C-5" parses (offset 0, octave -5), its raw value
(-5 + 1) * 12 + 0 = -48 is below range, and the parser returns the clamped
boundary 0; "A9" has raw value 129 and returns 127. -/
theorem C9_pitch_clamp_witness :
    pitchComponents "C-5" = some (0, -5)
    ∧ note_name_to_midi "C-5" = some 0
    ∧ pitchComponents "A9" = some (9, 9)
    ∧ note_name_to_midi "A9" = some 127 :=
  ⟨by decide,
   (C9_pitch_clamp "C-5" 0 (-5) (by decide)).2.1 (by decide),
   by decide,
   (C9_pitch_clamp "A9" 9 9 (by decide)).2.2 (by decide)⟩

/-! ### Claim C1: partition invariant for one accepted row -/

/-- C1: an accepted row appends exactly one matched note_on/note_off pair
(same note, note_off time = note_on time + duration ticks) to exactly one
partition — Bent when its bend is nonzero, Clean when it is zero — together
with a pitchwheel event if and only if the bend is nonzero, always in the
Bent partition; the other partition and the diagnostics are untouched. -/
theorem C1_partition_invariant (st : ParseState) (row : List String) (d : RowData)
    (h : processRow row = RowResult.ok d) :
    (d.bend ≠ 0 → stepRow st row =
      { st with bent := st.bent ++ [pbEvent d, onEvent d, offEvent d] })
    ∧ (d.bend = 0 → stepRow st row =
      { st with clean := st.clean ++ [onEvent d, offEvent d] })
    ∧ (onEvent d).kind = EKind.note_on ∧ (offEvent d).kind = EKind.note_off
    ∧ (onEvent d).note = d.midi_note ∧ (offEvent d).note = d.midi_note
    ∧ (offEvent d).time = (onEvent d).time + d.duration_ticks
    ∧ (pbEvent d).kind = EKind.pitchwheel ∧ (pbEvent d).val = d.bend := by
  have hb : stepRow st row =
      if d.bend ≠ 0 then { st with bent := st.bent ++ rowEvents d }
      else { st with clean := st.clean ++ rowEvents d } := by
    unfold stepRow; rw [h]
  have htime : (offEvent d).time = (onEvent d).time + d.duration_ticks := by
    obtain ⟨n, bend, v, dur, s, rfl⟩ := parseRow?_shape (processRow_ok h)
    simp only [offEvent, onEvent]
    exact mkRowData_end_ticks n bend v dur s
  refine ⟨?_, ?_, rfl, rfl, rfl, rfl, htime, rfl, rfl⟩
  · intro hne
    rw [hb, if_pos hne]
    simp [rowEvents, hne]
  · intro hz
    rw [hb]
    simp [rowEvents, hz]

/-- Concrete instance of C1: the row [C4, 2048, 0.5, 1.0, 0.5] is accepted
with bend 2048 and appends pitchwheel + note_on + note_off to the Bent
partition only. -/
theorem C1_partition_invariant_witness :
    processRow ["C4", "2048", "0.5", "1.0", "0.5"] =
      RowResult.ok ⟨60, 2048, 64, 480, 960, 1440⟩
    ∧ stepRow ⟨[], [], []⟩ ["C4", "2048", "0.5", "1.0", "0.5"] =
      ⟨[], [pbEvent ⟨60, 2048, 64, 480, 960, 1440⟩, onEvent ⟨60, 2048, 64, 480, 960, 1440⟩,
            offEvent ⟨60, 2048, 64, 480, 960, 1440⟩], []⟩ :=
  ⟨by decide,
   (C1_partition_invariant ⟨[], [], []⟩ ["C4", "2048", "0.5", "1.0", "0.5"]
      ⟨60, 2048, 64, 480, 960, 1440⟩ (by decide)).1 (by decide)⟩

/-! ### Claim C10: rows with fewer than 5 fields are skipped silently -/

/-- C10: a data row with fewer than 5 fields is classified `tooShort` and the
loop state is completely unchanged — no events are appended to either
partition and no diagnostic is produced — and processing continues with the
remaining rows as if the short row were absent. -/
theorem C10_short_row_silent (st : ParseState) (row : List String)
    (pre post : List (List String)) (h : row.length < 5) :
    processRow row = RowResult.tooShort
    ∧ stepRow st row = st
    ∧ parseRows (pre ++ row :: post) = parseRows (pre ++ post) := by
  have hp : processRow row = RowResult.tooShort := by
    unfold processRow; rw [if_neg (by omega)]
  have hs : ∀ s : ParseState, stepRow s row = s := by
    intro s; unfold stepRow; rw [hp]
  refine ⟨hp, hs st, ?_⟩
  unfold parseRows
  rw [List.foldl_append, List.foldl_append, List.foldl_cons, hs]

/-- Concrete instance of C10: a 1-field row leaves the loop state untouched. -/
theorem C10_short_row_silent_witness :
    processRow ["C4"] = RowResult.tooShort
    ∧ stepRow ⟨[], [], []⟩ ["C4"] = ⟨[], [], []⟩
    ∧ parseRows [["C4"], ["C4", "0", "0.5", "1.0", "0.0"]] =
      parseRows [["C4", "0", "0.5", "1.0", "0.0"]] := by
  have h := C10_short_row_silent ⟨[], [], []⟩ ["C4"] []
    [["C4", "0", "0.5", "1.0", "0.0"]] (by decide)
  exact ⟨h.1, h.2.1, h.2.2⟩

/-! ### Claim C8: empty partitions abort with a diagnostic and no output -/

theorem parseRows_of_no_ok (rows : List (List String))
    (h : ∀ row ∈ rows, ∀ d, processRow row ≠ RowResult.ok d) :
    (parseRows rows).clean = [] ∧ (parseRows rows).bent = [] := by
  suffices key : ∀ (rs : List (List String)) (st : ParseState),
      (∀ row ∈ rs, ∀ d, processRow row ≠ RowResult.ok d) →
      (rs.foldl stepRow st).clean = st.clean ∧ (rs.foldl stepRow st).bent = st.bent by
    exact key rows ⟨[], [], []⟩ h
  intro rs
  induction rs with
  | nil => intro st _; exact ⟨rfl, rfl⟩
  | cons r rest ih =>
    intro st hall
    have hstep : (stepRow st r).clean = st.clean ∧ (stepRow st r).bent = st.bent := by
      unfold stepRow
      cases hr : processRow r with
      | tooShort => exact ⟨rfl, rfl⟩
      | invalid => exact ⟨rfl, rfl⟩
      | ok d => exact absurd hr (hall r (List.mem_cons_self r rest) d)
    have := ih (stepRow st r) (fun row hrow d => hall row (List.mem_cons_of_mem r hrow) d)
    rw [List.foldl_cons]
    exact ⟨this.1.trans hstep.1, this.2.trans hstep.2⟩

/-- C8: when every data row is skipped (or there are no data rows), both
partitions are empty, the pipeline writes no output, logs the diagnostic
"No valid events found." and returns normally. -/
theorem C8_no_valid_events (rows : List (List String)) (out : String)
    (h : ∀ row ∈ rows, ∀ d, processRow row ≠ RowResult.ok d) :
    (generate_24edo_sequencer rows out).tracks = none
    ∧ (generate_24edo_sequencer rows out).console =
      (parseRows rows).diags ++ ["No valid events found."] := by
  obtain ⟨hc, hb⟩ := parseRows_of_no_ok rows h
  unfold generate_24edo_sequencer
  rw [if_pos ⟨hc, hb⟩]
  exact ⟨rfl, rfl⟩

/-- Concrete instance of C8: a file with no data rows produces no output and
logs exactly "No valid events found.". -/
theorem C8_no_valid_events_witness :
    (generate_24edo_sequencer [] "out.mid").tracks = none
    ∧ (generate_24edo_sequencer [] "out.mid").console = ["No valid events found."] := by
  have h := C8_no_valid_events [] "out.mid" (by simp)
  exact ⟨h.1, h.2⟩

/-! ### Claim C7: end-to-end scenario B -/

/-- C7: the two rows [C4,0,0.787,1.0,0.0] and [C4,2048,0.787,1.0,0.5] produce
a Clean partition with exactly one note_on/note_off pair, a Bent partition
with pitchwheel 2048 at absolute tick 480, note_on at tick 480, note_off at
tick 1440, and the corresponding two saved tracks. -/
theorem C7_scenario_B :
    (parseRows [["C4", "0", "0.787", "1.0", "0.0"], ["C4", "2048", "0.787", "1.0", "0.5"]]).clean =
      [{ time := 0, priority := 1, kind := EKind.note_on, note := 60, vel := 100 },
       { time := 960, priority := 0, kind := EKind.note_off, note := 60 }]
    ∧ (parseRows [["C4", "0", "0.787", "1.0", "0.0"], ["C4", "2048", "0.787", "1.0", "0.5"]]).bent =
      [{ time := 480, priority := 0, kind := EKind.pitchwheel, val := 2048 },
       { time := 480, priority := 1, kind := EKind.note_on, note := 60, vel := 100 },
       { time := 1440, priority := 0, kind := EKind.note_off, note := 60 }]
    ∧ (generate_24edo_sequencer
        [["C4", "0", "0.787", "1.0", "0.0"], ["C4", "2048", "0.787", "1.0", "0.5"]]
        "out.mid").tracks =
      some [⟨"Standard Notes",
              [Msg.set_tempo 500000 0, Msg.program_change 0 0 0,
               Msg.note_on 0 60 100 0, Msg.note_off 0 60 0 960, Msg.end_of_track 0]⟩,
            ⟨"Microtonal Notes",
              [Msg.program_change 1 0 0, Msg.pitchwheel 1 2048 480,
               Msg.note_on 1 60 100 0, Msg.note_off 1 60 0 960, Msg.end_of_track 0]⟩] := by
  refine ⟨?_, ?_, ?_⟩ <;> decide

/-! ### Claim C2: scheduler ordering and stability -/

/-- Key predicate selecting the events with a given (time, priority) pair. -/
def keyP (t p : ℤ) (e : Event) : Bool :=
  decide (e.time = t ∧ e.priority = p)

theorem keyP_eq_true {t p : ℤ} {e : Event} :
    keyP t p e = true ↔ e.time = t ∧ e.priority = p := by
  unfold keyP
  exact decide_eq_true_iff

theorem filter_orderedInsert (t p : ℤ) (a : Event) (l : List Event) :
    (l.orderedInsert eventLE a).filter (keyP t p) =
      if keyP t p a then a :: l.filter (keyP t p) else l.filter (keyP t p) := by
  induction l with
  | nil =>
    cases h : keyP t p a <;> simp [List.orderedInsert, List.filter, h]
  | cons b bs ih =>
    by_cases hab : eventLE a b
    · rw [List.orderedInsert, if_pos hab]
      cases ha : keyP t p a <;> cases hb : keyP t p b <;>
        simp [List.filter_cons, ha, hb]
    · rw [List.orderedInsert, if_neg hab]
      cases ha : keyP t p a <;> cases hb : keyP t p b
      · simp [List.filter_cons, ha, hb, ih]
      · simp [List.filter_cons, ha, hb, ih]
      · simp [List.filter_cons, ha, hb, ih]
      · exfalso
        obtain ⟨ha1, ha2⟩ := keyP_eq_true.mp ha
        obtain ⟨hb1, hb2⟩ := keyP_eq_true.mp hb
        exact hab (Or.inr ⟨ha1.trans hb1.symm, by omega⟩)

theorem filter_sortEvents (t p : ℤ) (l : List Event) :
    (sortEvents l).filter (keyP t p) = l.filter (keyP t p) := by
  induction l with
  | nil => rfl
  | cons a as ih =>
    show ((as.insertionSort eventLE).orderedInsert eventLE a).filter (keyP t p) = _
    rw [filter_orderedInsert]
    unfold sortEvents at ih
    rw [ih, List.filter_cons]

theorem deltaEncodeAux_map_snd (l : List Event) :
    ∀ last : ℤ, (deltaEncodeAux last l).map Prod.snd = l := by
  induction l with
  | nil => intro last; rfl
  | cons e rest ih =>
    intro last
    show (_, e).2 :: (deltaEncodeAux e.time rest).map Prod.snd = _
    rw [ih]

/-- C2: the scheduler emits exactly the stably sorted event list: its output
events are non-decreasing in absolute time; among events sharing a time,
one with priority 0 (such as a pitchwheel) is never preceded by one with a
larger priority (such as a note_on); and the events sharing both time and
priority appear in their original input order. -/
theorem C2_scheduler_order_stable (l : List Event) :
    (schedule l).map Prod.snd = sortEvents l
    ∧ (sortEvents l).Pairwise (fun a b => a.time ≤ b.time)
    ∧ (sortEvents l).Pairwise (fun a b => a.time = b.time → a.priority ≤ b.priority)
    ∧ ∀ t p : ℤ, (sortEvents l).filter (keyP t p) = l.filter (keyP t p) := by
  have hsorted : (sortEvents l).Pairwise eventLE := List.sorted_insertionSort eventLE l
  refine ⟨deltaEncodeAux_map_snd (sortEvents l) 0, ?_, ?_, fun t p => filter_sortEvents t p l⟩
  · exact hsorted.imp (fun hab => by unfold eventLE at hab; omega)
  · exact hsorted.imp (fun hab => by unfold eventLE at hab; omega)

/-! ### Claim C3: delta encoding -/

theorem deltaEncodeAux_getD (l : List Event) :
    ∀ (last : ℤ) (i : ℕ), i < l.length →
      (deltaEncodeAux last l).getD i (0, default) =
        (max 0 ((l.getD i default).time - (if i = 0 then last else (l.getD (i - 1) default).time)),
         l.getD i default) := by
  induction l with
  | nil => intro last i hi; exact absurd hi (by simp)
  | cons e rest ih =>
    intro last i hi
    cases i with
    | zero =>
      show (if e.time - last < 0 then 0 else e.time - last, e) = _
      simp only [List.getD_cons_zero, if_pos rfl]
      refine Prod.ext ?_ rfl
      show (if e.time - last < 0 then 0 else e.time - last) = max 0 (e.time - last)
      omega
    | succ n =>
      have hrec := ih e.time n (by simpa using Nat.lt_of_succ_lt_succ hi)
      show (deltaEncodeAux e.time rest).getD n (0, default) = _
      rw [hrec]
      cases n with
      | zero => simp
      | succ m => simp

theorem deltaEncodeAux_sum (l : List Event) :
    ∀ last : ℤ, l.Pairwise (fun a b => a.time ≤ b.time) →
      (∀ x ∈ l, last ≤ x.time) →
      ((deltaEncodeAux last l).map Prod.fst).sum = (l.map Event.time).getLastD last - last := by
  induction l with
  | nil => intro last _ _; simp [deltaEncodeAux]
  | cons e rest ih =>
    intro last hp hall
    have h0 : last ≤ e.time := hall e (List.mem_cons_self e rest)
    rw [List.pairwise_cons] at hp
    have hrec := ih e.time hp.2 (fun x hx => hp.1 x hx)
    show ((if e.time - last < 0 then 0 else e.time - last) ::
      (deltaEncodeAux e.time rest).map Prod.fst).sum = _
    rw [List.sum_cons, hrec, List.map_cons, List.getLastD_cons]
    omega

theorem pairwise_time_le_getLast (s : List Event) :
    s.Pairwise (fun a b => a.time ≤ b.time) →
      ∀ e : Event, s.getLast? = some e → ∀ x ∈ s, x.time ≤ e.time := by
  induction s with
  | nil => intro _ e he; cases he
  | cons a as ih =>
    intro hp e he x hx
    rw [List.pairwise_cons] at hp
    cases as with
    | nil =>
      have : e = a := by
        have : some a = some e := he
        cases this; rfl
      cases hx with
      | head => simp [this]
      | tail _ h => cases h
    | cons b bs =>
      have he' : (b :: bs).getLast? = some e := he
      have hmem : e ∈ b :: bs := by
        have h1 := List.getLast?_eq_getLast (b :: bs) (by simp)
        rw [h1] at he'
        cases he'
        exact List.getLast_mem _
      cases hx with
      | head => exact le_trans (le_refl _) (hp.1 e hmem)
      | tail _ h => exact ih hp.2 e he' x h

/-- C3: the scheduler's emitted delta for the i-th sorted event equals
max(0, time_i - previous time) with the previous time 0 at the start, and —
for a non-empty partition whose event times are non-negative, as every
`NoteEvent` of the data model is — the deltas sum to the absolute time of
the partition's last (latest) event; a negative difference is clamped to 0
rather than reported as an error. -/
theorem C3_delta_encoding (l : List Event) (hne : l ≠ []) (h0 : ∀ e ∈ l, 0 ≤ e.time) :
    (∀ i : ℕ, i < l.length →
      (schedule l).getD i (0, default) =
        (max 0 (((sortEvents l).getD i default).time -
          (if i = 0 then 0 else ((sortEvents l).getD (i - 1) default).time)),
         (sortEvents l).getD i default))
    ∧ ∃ e : Event, (sortEvents l).getLast? = some e
        ∧ ((schedule l).map Prod.fst).sum = e.time
        ∧ ∀ x ∈ l, x.time ≤ e.time := by
  have hlen : (sortEvents l).length = l.length := List.length_insertionSort eventLE l
  have hmem : ∀ x : Event, x ∈ sortEvents l ↔ x ∈ l :=
    fun x => List.mem_insertionSort eventLE
  have hsorted : (sortEvents l).Pairwise (fun a b => a.time ≤ b.time) :=
    (List.sorted_insertionSort eventLE l).imp (fun hab => by unfold eventLE at hab; omega)
  have hsne : sortEvents l ≠ [] := by
    intro hempty
    apply hne
    have : l.length = 0 := by rw [← hlen, hempty]; rfl
    exact List.length_eq_zero.mp this
  refine ⟨?_, ?_⟩
  · intro i hi
    exact deltaEncodeAux_getD (sortEvents l) 0 i (by omega)
  · refine ⟨(sortEvents l).getLast hsne, List.getLast?_eq_getLast _ hsne, ?_, ?_⟩
    · have hsum := deltaEncodeAux_sum (sortEvents l) 0 hsorted
        (fun x hx => h0 x ((hmem x).mp hx))
      show ((deltaEncodeAux 0 (sortEvents l)).map Prod.fst).sum = _
      rw [hsum, List.getLastD_eq_getLast?, List.getLast?_map,
        List.getLast?_eq_getLast _ hsne]
      show ((sortEvents l).getLast hsne).time - 0 = _
      omega
    · intro x hx
      exact pairwise_time_le_getLast (sortEvents l) hsorted _
        (List.getLast?_eq_getLast _ hsne) x ((hmem x).mpr hx)

/-- Concrete instance of C3: an unsorted two-event list (times 5 and 3) is
scheduled with deltas 3 and 2, summing to the latest event time 5. -/
theorem C3_delta_encoding_witness :
    ([⟨5, 1, EKind.note_on, 60, 100, 0⟩, ⟨3, 0, EKind.note_off, 60, 0, 0⟩] :
        List Event) ≠ []
    ∧ (∀ e ∈ ([⟨5, 1, EKind.note_on, 60, 100, 0⟩, ⟨3, 0, EKind.note_off, 60, 0, 0⟩] :
        List Event), 0 ≤ e.time)
    ∧ ∃ e : Event,
        (sortEvents [⟨5, 1, EKind.note_on, 60, 100, 0⟩,
          ⟨3, 0, EKind.note_off, 60, 0, 0⟩]).getLast? = some e
        ∧ ((schedule [⟨5, 1, EKind.note_on, 60, 100, 0⟩,
            ⟨3, 0, EKind.note_off, 60, 0, 0⟩]).map Prod.fst).sum = e.time
        ∧ ∀ x ∈ ([⟨5, 1, EKind.note_on, 60, 100, 0⟩, ⟨3, 0, EKind.note_off, 60, 0, 0⟩] :
            List Event), x.time ≤ e.time :=
  ⟨by decide, by decide,
   (C3_delta_encoding [⟨5, 1, EKind.note_on, 60, 100, 0⟩, ⟨3, 0, EKind.note_off, 60, 0, 0⟩]
      (by decide) (by decide)).2⟩

/-! ### Claim C4: tick and velocity formulas of the translator -/

theorem qmul_int (q : ℚ) (s : ℤ) :
    q * (s : ℚ) = ((q.num * s : ℤ) : ℚ) / ((q.den : ℕ) : ℚ) := by
  conv_lhs => rw [← Rat.num_div_den q]
  push_cast
  ring

theorem floor_qmul (q : ℚ) (s : ℤ) :
    ⌊q * (s : ℚ)⌋ = (q.num * s) / (q.den : ℤ) := by
  rw [qmul_int]
  exact_mod_cast Rat.floor_intCast_div_natCast (q.num * s) q.den

theorem pyTruncMul_eq_floor (q : ℚ) (s : ℤ) (hq : 0 ≤ q) (hs : 0 ≤ s) :
    pyTruncMul q s = ⌊q * (s : ℚ)⌋ := by
  rw [floor_qmul]
  unfold pyTruncMul
  exact Int.tdiv_eq_ediv (mul_nonneg (Rat.num_nonneg.mpr hq) hs) (by positivity)

theorem pyRoundMul_eq (q : ℚ) (s : ℤ) : pyRoundMul q s = pyRound (q * (s : ℚ)) := by
  have hd : (0 : ℤ) < (q.den : ℤ) := by exact_mod_cast q.den_pos
  have hdq : (0 : ℚ) < ((q.den : ℤ) : ℚ) := by exact_mod_cast hd
  have hfl : ⌊q * (s : ℚ)⌋ = q.num * s / (q.den : ℤ) := floor_qmul q s
  have hfrac : q * (s : ℚ) - (⌊q * (s : ℚ)⌋ : ℚ) =
      ((q.num * s % (q.den : ℤ) : ℤ) : ℚ) / ((q.den : ℤ) : ℚ) := by
    rw [hfl, Int.emod_def, qmul_int]
    push_cast
    field_simp
  have h1 : (q * (s : ℚ) - (⌊q * (s : ℚ)⌋ : ℚ) < 1 / 2) ↔
      (2 * (q.num * s % (q.den : ℤ)) < (q.den : ℤ)) := by
    rw [hfrac, div_lt_div_iff₀ hdq (by norm_num : (0 : ℚ) < 2), one_mul,
      mul_comm ((q.num * s % (q.den : ℤ) : ℤ) : ℚ) 2]
    exact_mod_cast Iff.rfl
  have h2 : (1 / 2 < q * (s : ℚ) - (⌊q * (s : ℚ)⌋ : ℚ)) ↔
      ((q.den : ℤ) < 2 * (q.num * s % (q.den : ℤ))) := by
    rw [hfrac, div_lt_div_iff₀ (by norm_num : (0 : ℚ) < 2) hdq, one_mul,
      mul_comm ((q.num * s % (q.den : ℤ) : ℤ) : ℚ) 2]
    exact_mod_cast Iff.rfl
  unfold pyRoundMul pyRound
  by_cases hc1 : 2 * (q.num * s % (q.den : ℤ)) < (q.den : ℤ)
  · rw [if_pos hc1, if_pos (h1.mpr hc1), hfl]
  · by_cases hc2 : (q.den : ℤ) < 2 * (q.num * s % (q.den : ℤ))
    · rw [if_neg hc1, if_pos hc2, if_neg (fun hh => hc1 (h1.mp hh)), if_pos (h2.mpr hc2), hfl]
    · rw [if_neg hc1, if_neg hc2, if_neg (fun hh => hc1 (h1.mp hh)),
        if_neg (fun hh => hc2 (h2.mp hh)), hfl]

theorem pyRound_nonneg (x : ℚ) (h : 0 ≤ x) : 0 ≤ pyRound x := by
  have h0 : 0 ≤ ⌊x⌋ := Int.floor_nonneg.mpr h
  unfold pyRound
  split_ifs <;> omega

theorem pyRound_le_of_le (x : ℚ) (h : x ≤ 127) : pyRound x ≤ 127 := by
  have hf : ⌊x⌋ ≤ 127 := by
    have := Int.floor_le_floor h
    rwa [show ⌊(127 : ℚ)⌋ = 127 by norm_num] at this
  have hstep : ¬ (x - (⌊x⌋ : ℚ) < 1 / 2) → ⌊x⌋ + 1 ≤ 127 := by
    intro hge
    have h1 : (⌊x⌋ : ℚ) + 1 / 2 ≤ x := by linarith
    have h2 : (⌊x⌋ : ℚ) < 127 := by linarith
    have : ⌊x⌋ < 127 := by exact_mod_cast h2
    omega
  unfold pyRound
  split_ifs with hc1 hc2 hc3
  · omega
  · exact hstep hc1
  · omega
  · exact hstep hc1

/-- C4: a validated row (velocity in [0,1], duration and start non-negative)
is read positionally as [note, bend, velocity_norm, duration, start_time]
and accepted with start_ticks = floor(start * 960), duration_ticks =
floor(duration * 960), end_ticks their sum, and velocity = round(velocity *
127) — a value already within [0, 127], so equal to its clamp. -/
theorem C4_translator_fields (row : List String) (n bend : ℤ) (v dur st : ℚ)
    (hlen : 5 ≤ row.length)
    (hn : note_name_to_midi (row.getD 0 "") = some n)
    (hbend : parseInt? (row.getD 1 "") = some bend)
    (hv : parseFloat? (row.getD 2 "") = some v)
    (hdur : parseFloat? (row.getD 3 "") = some dur)
    (hst : parseFloat? (row.getD 4 "") = some st)
    (hv0 : 0 ≤ v) (hv1 : v ≤ 1) (hdur0 : 0 ≤ dur) (hst0 : 0 ≤ st) :
    processRow row = RowResult.ok
      { midi_note := n
        bend := bend
        velocity := pyRound (v * 127)
        start_ticks := ⌊st * 960⌋
        duration_ticks := ⌊dur * 960⌋
        end_ticks := ⌊st * 960⌋ + ⌊dur * 960⌋ }
    ∧ pyRound (v * 127) = max 0 (min 127 (pyRound (v * 127))) := by
  constructor
  · unfold processRow
    rw [if_pos hlen]
    have hp : parseRow? row = some (mkRowData n bend v dur st) := by
      unfold parseRow?
      rw [hbend, hv, hdur, hst, hn]
      rfl
    rw [hp]
    have e1 : pyTruncMul st TICKS_PER_SECOND = ⌊st * 960⌋ := by
      rw [pyTruncMul_eq_floor st TICKS_PER_SECOND hst0 (by norm_num [TICKS_PER_SECOND])]
      norm_num [TICKS_PER_SECOND]
    have e2 : pyTruncMul dur TICKS_PER_SECOND = ⌊dur * 960⌋ := by
      rw [pyTruncMul_eq_floor dur TICKS_PER_SECOND hdur0 (by norm_num [TICKS_PER_SECOND])]
      norm_num [TICKS_PER_SECOND]
    have e3 : pyRoundMul v 127 = pyRound (v * 127) := by
      rw [pyRoundMul_eq v 127]
      norm_num
    unfold mkRowData
    rw [e1, e2, e3]
  · have hr0 : 0 ≤ pyRound (v * 127) := pyRound_nonneg _ (by positivity)
    have hr1 : pyRound (v * 127) ≤ 127 := by
      refine pyRound_le_of_le _ ?_
      calc v * 127 ≤ 1 * 127 := by nlinarith
        _ = 127 := by norm_num
    omega

/-- Concrete instance of C4: the row [C4, 10, 0.5, 1.0, 2.0] is accepted with
start_ticks 1920, duration_ticks 960, end_ticks 2880 and velocity
round(63.5) = 64 (Python rounds half to even). -/
theorem C4_translator_fields_witness :
    note_name_to_midi "C4" = some 60
    ∧ parseFloat? "0.5" = some (mkRat 1 2)
    ∧ processRow ["C4", "10", "0.5", "1.0", "2.0"] = RowResult.ok
      { midi_note := 60
        bend := 10
        velocity := pyRound ((mkRat 1 2) * 127)
        start_ticks := ⌊(2 : ℚ) * 960⌋
        duration_ticks := ⌊(1 : ℚ) * 960⌋
        end_ticks := ⌊(2 : ℚ) * 960⌋ + ⌊(1 : ℚ) * 960⌋ } :=
  ⟨by decide, by decide,
   (C4_translator_fields ["C4", "10", "0.5", "1.0", "2.0"] 60 10 (mkRat 1 2) 1 2
      (by decide) (by decide) (by decide) (by decide) (by decide) (by decide)
      (by decide) (by decide) (by decide) (by decide)).1⟩

/-! ### Claim C6: track assembly -/

theorem eventMsg_not_tempo (channel : ℤ) (de : ℤ × Event) :
    (eventMsg channel de).isTempo = false := by
  unfold eventMsg
  cases de.2.kind <;> rfl

/-- C6: the assembler always produces a Clean track — even for an empty Clean
partition — whose first two messages are the tempo meta message (500000
microseconds per beat, 120 BPM) and a program change on channel 0, followed
by the scheduled Clean events and an end-of-track marker; a Bent track is
produced exactly when the Bent partition is non-empty, and it carries a
program change on channel 1 and no tempo message at all. -/
theorem C6_assembler_tracks (clean bent : List Event) :
    assemble clean bent ≠ []
    ∧ (assemble clean bent).getD 0 default =
      ⟨"Standard Notes",
        [Msg.set_tempo 500000 0, Msg.program_change 0 0 0]
          ++ write_events_to_track clean 0 ++ [Msg.end_of_track 0]⟩
    ∧ (bent = [] → (assemble clean bent).length = 1)
    ∧ (bent ≠ [] → (assemble clean bent).length = 2
        ∧ (assemble clean bent).getD 1 default =
          ⟨"Microtonal Notes",
            [Msg.program_change 1 0 0] ++ write_events_to_track bent 1
              ++ [Msg.end_of_track 0]⟩
        ∧ Msg.program_change 1 0 0 ∈ ((assemble clean bent).getD 1 default).msgs
        ∧ ∀ m ∈ ((assemble clean bent).getD 1 default).msgs, m.isTempo = false) := by
  by_cases hb : bent = []
  · refine ⟨by simp [assemble, hb], by simp [assemble, hb, buildCleanTrack], ?_, ?_⟩
    · intro _; simp [assemble, hb]
    · intro h; exact absurd hb h
  · have hassemble : assemble clean bent = [buildCleanTrack clean, buildBentTrack bent] := by
      simp [assemble, hb]
    refine ⟨by simp [hassemble], by simp [hassemble, buildCleanTrack], ?_, ?_⟩
    · intro h; exact absurd h hb
    · intro _
      refine ⟨by simp [hassemble], by simp [hassemble, buildBentTrack], ?_, ?_⟩
      · simp [hassemble, buildBentTrack]
      · intro m hm
        simp only [hassemble, buildBentTrack, List.getD_cons_succ, List.getD_cons_zero] at hm
        simp only [List.mem_append, List.mem_cons, List.not_mem_nil, or_false] at hm
        rcases hm with (hm | hm) | hm
        · rw [hm]; rfl
        · unfold write_events_to_track at hm
          obtain ⟨de, _, rfl⟩ := List.mem_map.mp hm
          exact eventMsg_not_tempo 1 de
        · rw [hm]; rfl

/-- Concrete instance of C6: with an empty Clean partition and a one-event
Bent partition, both tracks exist, the Bent track is present and free of
tempo messages. -/
theorem C6_assembler_tracks_witness :
    ([⟨0, 1, EKind.note_on, 60, 100, 0⟩] : List Event) ≠ []
    ∧ ((assemble [] [⟨0, 1, EKind.note_on, 60, 100, 0⟩]).length = 2
        ∧ (assemble [] [⟨0, 1, EKind.note_on, 60, 100, 0⟩]).getD 1 default =
          ⟨"Microtonal Notes",
            [Msg.program_change 1 0 0]
              ++ write_events_to_track [⟨0, 1, EKind.note_on, 60, 100, 0⟩] 1
              ++ [Msg.end_of_track 0]⟩
        ∧ Msg.program_change 1 0 0 ∈
          ((assemble [] [⟨0, 1, EKind.note_on, 60, 100, 0⟩]).getD 1 default).msgs
        ∧ ∀ m ∈ ((assemble [] [⟨0, 1, EKind.note_on, 60, 100, 0⟩]).getD 1 default).msgs,
            m.isTempo = false) :=
  ⟨by decide,
   (C6_assembler_tracks [] [⟨0, 1, EKind.note_on, 60, 100, 0⟩]).2.2.2 (by decide)⟩

end Micromidi
